import Mathlib

/-!
Verification of the wildcat-code protocol core.

Shallow embedding of:
* `src/backend/backendAPI/cobs.py` — COBS-style byte stuffing codec
  (constants: DELIMITER = 2, NO_DELIMITER = 0xFF = 255, COBS_CODE_OFFSET =
  DELIMITER = 2, MAX_BLOCK_SIZE = 84, XOR mask = 3).
* `src/backend/backendAPI/crc.py` — zero-padded CRC32 (`crc`), on top of
  `binascii.crc32` (the standard zlib CRC-32, modelled bit-precisely as
  `crc32` below).
* `src/backend/backendAPI/app.py` — request correlator (`on_data`,
  `send_request`) and the chunked `file_upload` session.

Byte sequences are `List Nat`; Python exceptions are `Option`-failures.
-/

/-! ## COBS encoder (cobs.py, `encode`) -/

/-- Encoder state of `cobs.py/encode`: the output `bytearray`, the index of
the current incomplete code word, and the current block size (code word
included). -/
structure EncSt where
  buffer : List Nat
  code_index : Nat
  block : Nat
deriving DecidableEq

/-- `begin_block` from `cobs.py/encode`: remember the placeholder position,
append the `NO_DELIMITER` (255) placeholder, reset block size to 1. -/
def beginBlock (s : EncSt) : EncSt :=
  { buffer := s.buffer ++ [255], code_index := s.buffer.length, block := 1 }

/-- One iteration of the `for byte in data` loop of `cobs.py/encode`:
append bytes greater than the delimiter (2); on a delimiter-class byte
(`byte <= 2`) or a full block (`block > 84`), finalize the code word (only
for delimiter-terminated blocks: `buffer[code_index] = byte*84 + block + 2`)
and start a new block. -/
def encStep (s : EncSt) (byte : Nat) : EncSt :=
  let s1 := if 2 < byte then { s with buffer := s.buffer ++ [byte], block := s.block + 1 } else s
  if byte ≤ 2 ∨ 84 < s1.block then
    beginBlock
      (if byte ≤ 2 then
        { s1 with buffer := s1.buffer.set s1.code_index (byte * 84 + s1.block + 2) }
      else s1)
  else s1

/-- `cobs.py/encode`: COBS-encode `data` so that no delimiter-class byte
(value ≤ 2) appears in the output.  The final code word is
`buffer[code_index] = block + 2`. -/
def encode (data : List Nat) : List Nat :=
  let s := data.foldl encStep (beginBlock ⟨[], 0, 0⟩)
  s.buffer.set s.code_index (s.block + 2)

/-! ## COBS decoder (cobs.py, `decode`) -/

/-- `unescape` from `cobs.py/decode`: recover the escaped delimiter value
(if any) and the block size from a code word.  Python's `divmod` on a
possibly negative dividend is floor-based, which for the positive divisor
84 coincides with `Int.ediv`/`Int.emod`. -/
def unescape (code : Nat) : Option Int × Nat :=
  if code = 255 then (none, 85)
  else if Int.emod ((code : Int) - 2) 84 = 0 then
    (some (Int.ediv ((code : Int) - 2) 84 - 1), 84)
  else
    (some (Int.ediv ((code : Int) - 2) 84), (Int.emod ((code : Int) - 2) 84).toNat)

/-- The `for byte in data[1:]` loop of `cobs.py/decode`.  `value`/`block`
come from the current code word, `buf` is the output `bytearray`.
Appending an out-of-range escaped value (`bytearray.append` on an int
outside `0..255`) raises `ValueError`, modelled as `none`. -/
def decodeLoop : List Nat → Option Int → Nat → List Nat → Option (List Nat)
  | [], _, _, buf => some buf
  | b :: rest, value, block, buf =>
    if 0 < block - 1 then
      decodeLoop rest value (block - 1) (buf ++ [b])
    else
      match value with
      | none => decodeLoop rest (unescape b).1 (unescape b).2 buf
      | some v =>
        if 0 ≤ v ∧ v < 256 then
          decodeLoop rest (unescape b).1 (unescape b).2 (buf ++ [v.toNat])
        else none

/-- `cobs.py/decode`: COBS-decode `data`.  `data[0]` on an empty input
raises `IndexError`, modelled as `none`. -/
def decode (data : List Nat) : Option (List Nat) :=
  match data with
  | [] => none
  | c :: rest => decodeLoop rest (unescape c).1 (unescape c).2 []

/-! ## Framing (cobs.py, `pack` / `unpack`) -/

/-- `cobs.py/pack`: COBS-encode, XOR every byte with the mask 3, append the
(unmasked) delimiter byte 2. -/
def pack (data : List Nat) : List Nat :=
  ((encode data).map fun x => x ^^^ 3) ++ [2]

/-- `cobs.py/unpack`: skip an optional leading 0x01 priority byte, XOR-unmask
everything except the final delimiter (`frame[start:-1]`), COBS-decode.
`frame[0]` on an empty frame raises `IndexError`, modelled as `none`. -/
def unpack (frame : List Nat) : Option (List Nat) :=
  match frame with
  | [] => none
  | f0 :: rest =>
    decode ((((f0 :: rest).drop (if f0 = 1 then 1 else 0)).dropLast).map fun x => x ^^^ 3)

/-! ## Proof-side reference forms for the encoder -/

/-- Reference (recursive) form of the encoder: `goPartial cur S` is the
output still to be produced when the literals `cur` are already sitting in
the current open block and `S` is the remaining input.  `encode S =
goPartial [] S` is proved below (`encode_eq_goPartial`). -/
def goPartial (cur : List Nat) : List Nat → List Nat
  | [] => (cur.length + 1 + 2) :: cur
  | b :: rest =>
    if b ≤ 2 then
      (b * 84 + (cur.length + 1) + 2) :: (cur ++ goPartial [] rest)
    else if 84 < cur.length + 1 + 1 then
      255 :: ((cur ++ [b]) ++ goPartial [] rest)
    else
      goPartial (cur ++ [b]) rest

/-- The final step of `cobs.py/encode`: write the last code word. -/
def encFinish (s : EncSt) : List Nat := s.buffer.set s.code_index (s.block + 2)

/-- `cobs.py/decode` with an explicit accumulator (the decoder after some
bytes have already been emitted). -/
def decodeAux (data : List Nat) (acc : List Nat) : Option (List Nat) :=
  match data with
  | [] => none
  | c :: rest => decodeLoop rest (unescape c).1 (unescape c).2 acc

/-! ## CRC32 (binascii.crc32 = zlib CRC-32) and crc.py -/

/-- One bit step of the CRC-32 table computation: shift right, conditionally
XOR the reflected polynomial 0xEDB88320. -/
def crcStep1 (x : Nat) : Nat := if x % 2 = 1 then (x / 2) ^^^ 0xEDB88320 else x / 2

/-- The CRC-32 table entry for byte `n`: eight bit steps. -/
def crcTable (n : Nat) : Nat :=
  crcStep1 (crcStep1 (crcStep1 (crcStep1 (crcStep1 (crcStep1 (crcStep1 (crcStep1 n)))))))

/-- One byte step of CRC-32: `crc = (crc >> 8) ^ table[(crc ^ b) & 0xFF]`. -/
def crcByte (r b : Nat) : Nat := (r / 256) ^^^ crcTable ((r ^^^ b) % 256)

/-- `binascii.crc32(data, seed)`: pre- and post-complement around the byte
fold.  (Sanity: `crc32` of the ASCII bytes of "Hello" with seed 0 is
0xF7D18982.) -/
def crc32 (data : List Nat) (seed : Nat) : Nat :=
  (data.foldl crcByte (seed ^^^ 0xFFFFFFFF)) ^^^ 0xFFFFFFFF

/-- `crc.py/crc`: pad `data` with trailing zero bytes to a multiple of
`align` (none if already aligned), then CRC32 with `seed`.  Callers always
pass a positive `align` (the default is 4); `align = 0` would raise
`ZeroDivisionError` in Python and is outside every use below. -/
def crc (data : List Nat) (seed : Nat) (align : Nat) : Nat :=
  crc32 (if data.length % align ≠ 0 then data ++ List.replicate (align - data.length % align) 0
         else data) seed

/-! ## Request correlator (app.py: `pending_response`, `send_request`, `on_data`) -/

/-- The state of an `asyncio.Future`: unresolved, or resolved with a value
(here the correlated message, represented by its numeric identifier). -/
inductive FState where
  | pending : FState
  | done : Int → FState
deriving DecidableEq

/-- The global `pending_response` tuple of `app.py`: the expected response
identifier (initially -1) and the future the caller awaits. -/
structure CorrSt where
  expected : Int
  future : FState
deriving DecidableEq

/-- The state update of `app.py/send_request`:
`pending_response = (response_type.ID, asyncio.Future())`. -/
def send_request_pending (respId : Int) : CorrSt := ⟨respId, FState.pending⟩

/-- `Future.set_result`: resolves a pending future; on an already-resolved
future it raises `InvalidStateError` (not caught by the `except ValueError`
in `on_data`), modelled as `none`. -/
def setResult (f : FState) (v : Int) : Option FState :=
  match f with
  | FState.pending => some (FState.done v)
  | FState.done _ => none

/-- The correlation step of `app.py/on_data`:
`if message.ID == pending_response[0]: pending_response[1].set_result(message)`.
A non-matching identifier leaves the state untouched (the notification
branch only prints). -/
def onMessage (st : CorrSt) (mid : Int) : Option CorrSt :=
  if mid = st.expected then
    (setResult st.future mid).map fun f => ⟨st.expected, f⟩
  else some st

/-- `app.py/on_data` on a received packet: a packet whose last byte is not
the delimiter 2 is dropped (early `return`, no decoding); otherwise the
packet is `cobs.unpack`-ed (an exception there propagates out of the
callback: `none`), deserialized (`deserialize` lives in the external
`messages` module, so it is a parameter; its `ValueError` is caught,
leaving the state unchanged), and correlated via `onMessage`. -/
def on_data (deser : List Nat → Option Int) (st : CorrSt) (data : List Nat) : Option CorrSt :=
  match data.getLast? with
  | none => none
  | some lastByte =>
    if lastByte ≠ 2 then some st
    else
      match unpack data with
      | none => none
      | some payload =>
        match deser payload with
        | none => some st
        | some mid => onMessage st mid

/-! ## Upload session (app.py, `file_upload`) -/

/-- The chunks visited by the loop
`for i in range(0, len(payload), max_chunk_size): chunk = payload[i:i+max_chunk_size]`. -/
def uploadChunks (payload : List Nat) (mcs : Nat) : List (List Nat) :=
  (List.range ((payload.length + mcs - 1) / mcs)).map fun k => (payload.drop (k * mcs)).take mcs

/-- The running checksum after the chunk loop: each chunk's `crc` is seeded
with the previous running value (`running_crc = crc(chunk, running_crc)`),
starting from 0. -/
def runningCrc (payload : List Nat) (mcs : Nat) : Nat :=
  (uploadChunks payload mcs).foldl (fun r c => crc c r 4) 0

/-- The requests `file_upload` can send, tagged with the fields the code
puts in them (slot, full-payload crc, running crc + chunk bytes). -/
inductive Req where
  | clearSlot : Nat → Req
  | startUpload : Nat → Req
  | transferChunk : Nat → List Nat → Req
  | programFlow : Req
deriving DecidableEq

/-- Terminal outcome of a `file_upload` session: normal return, or
`sys.exit(1)`. -/
inductive UpResult where
  | completed : UpResult
  | failed : UpResult
deriving DecidableEq

/-- The chunk-transfer loop of `app.py/file_upload` followed by the
program-flow step: each chunk is sent with the updated running crc; a
chunk response with `success == False` exits immediately; after the last
chunk the program-flow request is sent and its failure also exits. -/
def chunkPhase (chunkOk : List Nat → Bool) (progOk : Bool) :
    List (List Nat) → Nat → List Req → UpResult × List Req
  | [], _, sent =>
    if progOk then (UpResult.completed, sent ++ [Req.programFlow])
    else (UpResult.failed, sent ++ [Req.programFlow])
  | c :: rest, run, sent =>
    if chunkOk c then
      chunkPhase chunkOk progOk rest (crc c run 4) (sent ++ [Req.transferChunk (crc c run 4) c])
    else (UpResult.failed, sent ++ [Req.transferChunk (crc c run 4) c])

/-- `app.py/file_upload` as a function of the device's response success
flags: clear the slot (slot 0; a `success == False` clear response is
non-fatal), request the upload with `crc(EXAMPLE_PROGRAM)` (a
`success == False` start response is `sys.exit(1)` before any chunk),
then run the chunk loop.  The second component lists every request sent,
in order. -/
def file_upload (clearOk startOk : Bool) (chunkOk : List Nat → Bool) (progOk : Bool)
    (payload : List Nat) (mcs : Nat) : UpResult × List Req :=
  if ¬ startOk then
    (UpResult.failed, [Req.clearSlot 0, Req.startUpload (crc payload 0 4)])
  else
    chunkPhase chunkOk progOk (uploadChunks payload mcs) 0
      [Req.clearSlot 0, Req.startUpload (crc payload 0 4)]

/-! ## Helper lemmas: the encoder fold equals its recursive form -/

/-- Setting the element right after a prefix of known length. -/
theorem set_mid (l1 : List Nat) (a c : Nat) (l2 : List Nat) :
    (l1 ++ a :: l2).set l1.length c = l1 ++ c :: l2 := by
  induction l1 with
  | nil => rfl
  | cons x xs ih => simp [List.set, ih]

/-- Invariant of the encoder loop: a buffer holding finished output `done`,
the placeholder 255, and the literals `cur` of the open block steps to
`done ++ goPartial cur S`. -/
theorem encode_fold (S : List Nat) : ∀ (done cur : List Nat),
    encFinish (S.foldl encStep ⟨done ++ 255 :: cur, done.length, cur.length + 1⟩) =
    done ++ goPartial cur S := by
  induction S with
  | nil =>
    intro done cur
    simp [encFinish, goPartial, set_mid]
  | cons b rest ih =>
    intro done cur
    rw [List.foldl_cons]
    by_cases hb : b ≤ 2
    · have hstep : encStep ⟨done ++ 255 :: cur, done.length, cur.length + 1⟩ b =
        ⟨(done ++ (b * 84 + (cur.length + 1) + 2) :: cur) ++ [255],
         (done ++ (b * 84 + (cur.length + 1) + 2) :: cur).length, 1⟩ := by
        simp [encStep, beginBlock, hb, Nat.not_lt.mpr hb, set_mid]
      rw [hstep]
      have h2 := ih (done ++ (b * 84 + (cur.length + 1) + 2) :: cur) []
      simp only [List.length_nil, Nat.zero_add] at h2
      rw [h2]
      simp [goPartial, hb]
    · have hb' : 2 < b := Nat.not_le.mp hb
      by_cases hfull : 84 < cur.length + 1 + 1
      · have hstep : encStep ⟨done ++ 255 :: cur, done.length, cur.length + 1⟩ b =
          ⟨(done ++ 255 :: (cur ++ [b])) ++ [255],
           (done ++ 255 :: (cur ++ [b])).length, 1⟩ := by
          simp [encStep, beginBlock, hb, hb', hfull]
        rw [hstep]
        have h2 := ih (done ++ 255 :: (cur ++ [b])) []
        simp only [List.length_nil, Nat.zero_add] at h2
        rw [h2]
        simp [goPartial, hb, hfull]
      · have hstep : encStep ⟨done ++ 255 :: cur, done.length, cur.length + 1⟩ b =
          ⟨done ++ 255 :: (cur ++ [b]), done.length, (cur ++ [b]).length + 1⟩ := by
          simp [encStep, beginBlock, hb, hb', hfull]
        rw [hstep]
        rw [ih done (cur ++ [b])]
        simp [goPartial, hb, hfull]

/-- The imperative encoder equals its recursive reference form. -/
theorem encode_eq_goPartial (S : List Nat) : encode S = goPartial [] S := by
  have h := encode_fold S [] []
  simpa [encode, beginBlock, encFinish] using h

/-! ## Helper lemmas: the decoder inverts the blocks `goPartial` emits -/

/-- `unescape` on every closing code word the encoder writes
(`e ∈ {0,1,2}` the terminating byte, `L ≤ 83` the literal count): checked
exhaustively over the finite range. -/
theorem unescape_close_aux : ∀ e, e < 3 → ∀ L, L < 84 →
    unescape (e * 84 + (L + 1) + 2) = (some (e : Int), L + 1) := by decide

/-- `unescape` on a closing code word recovers the terminating byte and
the block size. -/
theorem unescape_close (e L : Nat) (he : e ≤ 2) (hL : L ≤ 83) :
    unescape (e * 84 + (L + 1) + 2) = (some (e : Int), L + 1) :=
  unescape_close_aux e (by omega) L (by omega)

/-- `unescape` on the max-block sentinel. -/
theorem unescape_255 : unescape 255 = (none, 85) := rfl

/-- `decode` is `decodeAux` with an empty accumulator. -/
theorem decode_eq_decodeAux (data : List Nat) : decode data = decodeAux data [] := by
  cases data <;> rfl

/-- The decode loop copies the `lits.length` literals of the current block
into the accumulator, decrementing the block counter to 1. -/
theorem decodeLoop_lits (lits : List Nat) : ∀ (rest : List Nat) (v : Option Int) (acc : List Nat),
    decodeLoop (lits ++ rest) v (lits.length + 1) acc = decodeLoop rest v 1 (acc ++ lits) := by
  induction lits with
  | nil => intro rest v acc; simp
  | cons x xs ih =>
    intro rest v acc
    simp only [List.cons_append, List.length_cons, decodeLoop]
    rw [if_pos (by omega)]
    have h2 : (xs.length + 1 + 1) - 1 = xs.length + 1 := by omega
    rw [h2]
    simp only [List.append_eq]
    rw [ih]
    simp

/-- Completing a block with no escaped value hands over to the next code
word. -/
theorem decodeLoop_one_none (data : List Nat) (acc : List Nat) (h : data ≠ []) :
    decodeLoop data none 1 acc = decodeAux data acc := by
  cases data with
  | nil => exact absurd rfl h
  | cons b rest => simp [decodeLoop, decodeAux]

/-- Completing a block with escaped value `e ≤ 2` appends it and hands over
to the next code word. -/
theorem decodeLoop_one_some (data : List Nat) (acc : List Nat) (e : Nat) (h : data ≠ [])
    (he : e ≤ 2) :
    decodeLoop data (some (e : Int)) 1 acc = decodeAux data (acc ++ [e]) := by
  cases data with
  | nil => exact absurd rfl h
  | cons b rest =>
    simp only [decodeLoop, decodeAux]
    rw [if_neg (by omega), if_pos (by constructor <;> omega)]
    simp

/-- The encoder always emits at least one code word. -/
theorem goPartial_ne_nil (S : List Nat) : ∀ cur : List Nat, goPartial cur S ≠ [] := by
  induction S with
  | nil => intro cur; simp [goPartial]
  | cons b rest ih =>
    intro cur
    simp only [goPartial]
    split_ifs with h1 h2
    · simp
    · simp
    · exact ih (cur ++ [b])

/-- Round-trip, generalized: decoding the encoder's remaining output
recovers the open-block literals and the remaining input. -/
theorem decodeAux_goPartial (S : List Nat) : ∀ (cur acc : List Nat), cur.length ≤ 83 →
    decodeAux (goPartial cur S) acc = some (acc ++ cur ++ S) := by
  induction S with
  | nil =>
    intro cur acc h83
    simp only [goPartial, decodeAux]
    have h0 : cur.length + 1 + 2 = 0 * 84 + (cur.length + 1) + 2 := by omega
    rw [h0, unescape_close 0 cur.length (by omega) h83]
    have hsplit : cur = cur ++ ([] : List Nat) := by simp
    calc decodeLoop cur (some ((0 : Nat) : Int)) (cur.length + 1) acc
        = decodeLoop (cur ++ []) (some ((0 : Nat) : Int)) (cur.length + 1) acc := by
          rw [← hsplit]
      _ = decodeLoop [] (some ((0 : Nat) : Int)) 1 (acc ++ cur) := by rw [decodeLoop_lits]
      _ = some (acc ++ cur ++ []) := by simp [decodeLoop]
  | cons b rest ih =>
    intro cur acc h83
    by_cases hb : b ≤ 2
    · simp only [goPartial, if_pos hb, decodeAux]
      rw [unescape_close b cur.length hb h83]
      rw [decodeLoop_lits cur (goPartial [] rest)]
      rw [decodeLoop_one_some _ _ b (goPartial_ne_nil rest []) hb]
      rw [ih [] (acc ++ cur ++ [b]) (by simp)]
      simp
    · by_cases hfull : 84 < cur.length + 1 + 1
      · have hcl : cur.length = 83 := by omega
        simp only [goPartial, if_neg hb, if_pos hfull, decodeAux]
        rw [unescape_255]
        have hlen : (85 : Nat) = (cur ++ [b]).length + 1 := by simp [hcl]
        simp only [hlen]
        rw [decodeLoop_lits (cur ++ [b]) (goPartial [] rest)]
        rw [decodeLoop_one_none _ _ (goPartial_ne_nil rest [])]
        rw [ih [] (acc ++ (cur ++ [b])) (by simp)]
        simp
      · simp only [goPartial, if_neg hb, if_neg hfull]
        rw [ih (cur ++ [b]) acc (by simp; omega)]
        simp

/-- COBS round trip (shared by the C1 and C2 theorems). -/
theorem decode_encode (S : List Nat) : decode (encode S) = some S := by
  rw [encode_eq_goPartial, decode_eq_decodeAux]
  have h := decodeAux_goPartial S [] [] (by simp)
  simpa using h

/-! ## Helper lemmas: encoded bytes exceed the delimiter; pack/unpack -/

/-- Every byte the encoder emits is strictly greater than 2, provided the
open-block literals already are. -/
theorem goPartial_gt_two (S : List Nat) : ∀ cur : List Nat, (∀ x ∈ cur, 2 < x) →
    ∀ y ∈ goPartial cur S, 2 < y := by
  induction S with
  | nil =>
    intro cur hcur y hy
    simp only [goPartial, List.mem_cons] at hy
    rcases hy with h | h
    · omega
    · exact hcur y h
  | cons b rest ih =>
    intro cur hcur y hy
    simp only [goPartial] at hy
    split_ifs at hy with h1 h2
    · simp only [List.mem_cons, List.mem_append] at hy
      rcases hy with h | h | h
      · omega
      · exact hcur y h
      · exact ih [] (by simp) y h
    · simp only [List.mem_cons, List.mem_append, List.mem_singleton, List.not_mem_nil,
        or_false] at hy
      rcases hy with h | (h | h) | h
      · omega
      · exact hcur y h
      · omega
      · exact ih [] (by simp) y h
    · refine ih (cur ++ [b]) ?_ y hy
      intro x hx
      simp only [List.mem_append, List.mem_singleton] at hx
      rcases hx with h | h
      · exact hcur x h
      · omega

/-- Every byte of `encode S` is strictly greater than the delimiter 2. -/
theorem encode_gt_two (S : List Nat) : ∀ y ∈ encode S, 2 < y := by
  rw [encode_eq_goPartial]
  exact goPartial_gt_two S [] (by simp)

/-- The XOR-3 mask is an involution. -/
theorem xor3_xor3 (x : Nat) : x ^^^ 3 ^^^ 3 = x := by
  rw [Nat.xor_assoc, Nat.xor_self, Nat.xor_zero]

/-- Unmasking a masked list restores it. -/
theorem map_xor3_xor3 (l : List Nat) : (l.map fun x => x ^^^ 3).map (fun x => x ^^^ 3) = l := by
  induction l with
  | nil => rfl
  | cons x xs ih => simp [xor3_xor3, ih]

/-- Dropping the last element of `l ++ [a]` gives back `l`. -/
theorem dropLast_append_single (l : List Nat) (a : Nat) : (l ++ [a]).dropLast = l := by
  simp

/-- `unpack ∘ pack = some` (shared by the C2 theorem). -/
theorem pack_unpack (S : List Nat) : unpack (pack S) = some S := by
  rcases he : encode S with _ | ⟨h, t⟩
  · exact absurd he (by rw [encode_eq_goPartial]; exact goPartial_ne_nil S [])
  · have hh : 2 < h := by
      have := encode_gt_two S h (by rw [he]; simp)
      exact this
    have hne : h ^^^ 3 ≠ 1 := by
      intro hx
      have : h = 2 := by
        have := congrArg (fun z => z ^^^ 3) hx
        simpa [xor3_xor3] using this
      omega
    have hp : pack S = (h ^^^ 3) :: (t.map (fun x => x ^^^ 3) ++ [2]) := by
      simp [pack, he]
    rw [hp]
    simp only [unpack]
    rw [if_neg hne]
    simp only [List.drop_zero]
    have : (((h ^^^ 3) :: (t.map (fun x => x ^^^ 3) ++ [2])).dropLast) =
        (h ^^^ 3) :: t.map (fun x => x ^^^ 3) := by
      have : (h ^^^ 3) :: (t.map (fun x => x ^^^ 3) ++ [2]) =
          ((h ^^^ 3) :: t.map (fun x => x ^^^ 3)) ++ [2] := by simp
      rw [this, dropLast_append_single]
    rw [this]
    have hmap : (((h ^^^ 3) :: t.map (fun x => x ^^^ 3)).map fun x => x ^^^ 3) = h :: t := by
      have := map_xor3_xor3 (h :: t)
      simpa using this
    rw [hmap, ← he]
    exact decode_encode S

/-- No byte of `pack S` before the final delimiter equals 2. -/
theorem pack_dropLast_ne_two (S : List Nat) : ∀ y ∈ (pack S).dropLast, y ≠ 2 := by
  intro y hy
  rw [pack, dropLast_append_single] at hy
  simp only [List.mem_map] at hy
  obtain ⟨x, hx, rfl⟩ := hy
  have h2 : 2 < x := encode_gt_two S x hx
  intro heq
  have hx1 : x = 1 := by
    have h3 := congrArg (fun z => z ^^^ 3) heq
    simp only [xor3_xor3] at h3
    have h23 : (2 : Nat) ^^^ 3 = 1 := by decide
    rw [h23] at h3
    exact h3
  omega

/-! ## Helper lemmas: decode on truncated blocks -/

/-- When the remaining data is shorter than the current block, the decode
loop copies all of it literally and returns without error. -/
theorem decodeLoop_short : ∀ (rest : List Nat) (v : Option Int) (block : Nat) (acc : List Nat),
    rest.length < block → decodeLoop rest v block acc = some (acc ++ rest) := by
  intro rest
  induction rest with
  | nil => intro v block acc h; simp [decodeLoop]
  | cons b r2 ih =>
    intro v block acc h
    simp only [List.length_cons] at h
    simp only [decodeLoop]
    rw [if_pos (by omega)]
    rw [ih v (block - 1) (acc ++ [b]) (by omega)]
    simp

/-- decode on an input whose leading code word announces a block longer
than the data: silently returns the literal bytes that are present. -/
theorem decode_truncated (c : Nat) (rest : List Nat) (h : rest.length + 1 < (unescape c).2) :
    decode (c :: rest) = some rest := by
  simp only [decode]
  rw [decodeLoop_short rest (unescape c).1 (unescape c).2 [] (by omega)]
  simp

/-! ## Helper lemmas: CRC -/

/-- The 32-bit complement is an involution. -/
theorem xorFF_xorFF (x : Nat) : x ^^^ 0xFFFFFFFF ^^^ 0xFFFFFFFF = x := by
  rw [Nat.xor_assoc, Nat.xor_self, Nat.xor_zero]

/-- Streaming composition of CRC32: seeding with a previous result
continues that computation. -/
theorem crc32_append (a b : List Nat) (s : Nat) :
    crc32 (a ++ b) s = crc32 b (crc32 a s) := by
  simp only [crc32, List.foldl_append, xorFF_xorFF]

/-- `crc` adds no padding on 4-aligned input. -/
theorem crc_aligned (l : List Nat) (s : Nat) (h : l.length % 4 = 0) :
    crc l s 4 = crc32 l s := by
  simp [crc, h]

/-- `crc` equals CRC32 of the input padded with
`(align - len % align) % align` zero bytes (0 when already aligned). -/
theorem crc_pad_eq (S : List Nat) (seed align : Nat) (ha : 0 < align) :
    crc S seed align = crc32 (S ++ List.replicate ((align - S.length % align) % align) 0) seed := by
  by_cases hr : S.length % align = 0
  · simp [crc, hr, Nat.mod_self]
  · have hlt : S.length % align < align := Nat.mod_lt _ ha
    have : (align - S.length % align) % align = align - S.length % align :=
      Nat.mod_eq_of_lt (by omega)
    rw [this]
    simp [crc, hr]

/-- Running-checksum law of `crc.py/crc` at 4-aligned split points. -/
theorem crc_chain (S1 S2 : List Nat) (h1 : S1.length % 4 = 0) (h2 : S2.length % 4 = 0) :
    crc (S1 ++ S2) 0 4 = crc S2 (crc S1 0 4) 4 := by
  have h12 : (S1 ++ S2).length % 4 = 0 := by
    rw [List.length_append]; omega
  rw [crc_aligned _ _ h12, crc_aligned _ _ h1, crc_aligned _ _ h2, crc32_append]

/-- The 300-byte / chunk-128 upload scenario: three chunks of sizes
128, 128, 44, and the running checksum equals the whole-payload checksum. -/
theorem upload_chunks_300 (p : List Nat) (hp : p.length = 300) :
    (uploadChunks p 128).map List.length = [128, 128, 44] ∧
    runningCrc p 128 = crc p 0 4 := by
  have hn : (p.length + 128 - 1) / 128 = 3 := by rw [hp]
  have hc : uploadChunks p 128 = [p.take 128, (p.drop 128).take 128, (p.drop 256).take 128] := by
    simp only [uploadChunks, hn]
    norm_num [List.range_succ]
  have l1 : (p.take 128).length = 128 := by rw [List.length_take, hp]; norm_num
  have l2 : ((p.drop 128).take 128).length = 128 := by
    rw [List.length_take, List.length_drop, hp]; norm_num
  have l3 : ((p.drop 256).take 128).length = 44 := by
    rw [List.length_take, List.length_drop, hp]; norm_num
  constructor
  · rw [hc]
    simp [l1, l2, l3]
  · rw [runningCrc, hc]
    simp only [List.foldl_cons, List.foldl_nil]
    rw [crc_aligned _ _ (by rw [l3]), crc_aligned _ _ (by rw [l2]), crc_aligned _ _ (by rw [l1])]
    have h3 : (p.drop 256).take 128 = p.drop 256 := by
      apply List.take_of_length_le
      rw [List.length_drop, hp]
      omega
    have hsplit : p.take 128 ++ ((p.drop 128).take 128 ++ (p.drop 256).take 128) = p := by
      rw [h3]
      have h4 : p.drop 256 = (p.drop 128).drop 128 := by rw [List.drop_drop]
      rw [h4, List.take_append_drop, List.take_append_drop]
    rw [← crc32_append, ← crc32_append, hsplit, ← crc_aligned p 0 (by rw [hp])]

/-! ## Claim theorems -/

/-- C1: for every byte sequence S (in particular every `List Nat`, so also
the empty sequence and sequences ranging over all byte values 0..255),
`decode (encode S)` returns exactly S. -/
theorem claim_C1 (S : List Nat) : decode (encode S) = some S := decode_encode S

/-- C2: for every byte sequence S, `unpack (pack S)` returns exactly S —
pack XOR-masks the COBS encoding with 3 and appends the unmasked delimiter,
unpack skips an optional leading 0x01 priority byte, unmasks everything but
the final delimiter, and COBS-decodes. -/
theorem claim_C2 (S : List Nat) : unpack (pack S) = some S := pack_unpack S

/-- C3 counterexample: the input `[5]` has a leading code byte announcing a
block of size 3 (two literal bytes) with no data following, yet `decode`
returns the byte sequence `[]` instead of failing. -/
theorem claim_C3_counterexample :
    (unescape 5).2 = 3 ∧ decode [5] = some [] ∧ decode [5] ≠ none := by
  decide

/-- C3 (amended): on an input whose leading code byte implies a block
longer than the remaining data, `decode` does NOT fail — it returns the
remaining literal bytes unchanged (silent truncation). -/
theorem claim_C3 (c : Nat) (rest : List Nat) (h : rest.length + 1 < (unescape c).2) :
    decode (c :: rest) = some rest := decode_truncated c rest h

/-- C3 witness: code byte 5 (block size 3) followed by a single byte. -/
theorem claim_C3_witness :
    ([9] : List Nat).length + 1 < (unescape 5).2 ∧ decode [5, 9] = some [9] :=
  ⟨by decide, claim_C3 5 [9] (by decide)⟩

/-- C4: every byte of `encode S` is strictly greater than the reserved
delimiter value 2, hence every byte of `pack S` except the final appended
delimiter differs from 2. -/
theorem claim_C4 (S : List Nat) :
    (∀ y ∈ encode S, 2 < y) ∧ (∀ y ∈ (pack S).dropLast, y ≠ 2) :=
  ⟨encode_gt_two S, pack_dropLast_ne_two S⟩

/-- C5: `crc` is deterministic, pads with trailing zeros to a multiple of
`align` (none when already aligned) before CRC32 with the given seed, and
satisfies the running-checksum law
`crc (S1 ++ S2) 0 = crc S2 (crc S1 0)` at 4-aligned split points. -/
theorem claim_C5 (S S1 S2 : List Nat) (seed align : Nat) (ha : 0 < align)
    (h1 : S1.length % 4 = 0) (h2 : S2.length % 4 = 0) :
    crc S seed align = crc S seed align ∧
    crc S seed align = crc32 (S ++ List.replicate ((align - S.length % align) % align) 0) seed ∧
    crc (S1 ++ S2) 0 4 = crc S2 (crc S1 0 4) 4 :=
  ⟨rfl, crc_pad_eq S seed align ha, crc_chain S1 S2 h1 h2⟩

/-- C5 witness: concrete unaligned data `[1,2,3]` with seed 1, and the
chain law on `[4,5,6,7] ++ [8,9,10,11]`. -/
theorem claim_C5_witness :
    0 < 4 ∧ ([4, 5, 6, 7] : List Nat).length % 4 = 0 ∧ ([8, 9, 10, 11] : List Nat).length % 4 = 0 ∧
    (crc [1, 2, 3] 1 4 = crc [1, 2, 3] 1 4 ∧
     crc [1, 2, 3] 1 4 =
       crc32 ([1, 2, 3] ++ List.replicate ((4 - ([1, 2, 3] : List Nat).length % 4) % 4) 0) 1 ∧
     crc ([4, 5, 6, 7] ++ [8, 9, 10, 11]) 0 4 = crc [8, 9, 10, 11] (crc [4, 5, 6, 7] 0 4) 4) :=
  ⟨by decide, by decide, by decide,
   claim_C5 [1, 2, 3] [4, 5, 6, 7] [8, 9, 10, 11] 1 4 (by decide) (by decide) (by decide)⟩

/-- C6: after `send_request` records expected identifier `rid`, delivering
a message with a non-matching identifier leaves the request pending and the
state unchanged; delivering `rid` resolves the future exactly once; a later
duplicate with identifier `rid` is not delivered to that caller again
(`set_result` on the resolved future raises instead of re-resolving, and a
non-matching delivery leaves the resolved value untouched). -/
theorem claim_C6 (rid mid v : Int) (h : mid ≠ rid) :
    onMessage (send_request_pending rid) mid = some (send_request_pending rid) ∧
    onMessage (send_request_pending rid) rid = some ⟨rid, FState.done rid⟩ ∧
    onMessage ⟨rid, FState.done v⟩ rid = none ∧
    onMessage ⟨rid, FState.done v⟩ mid = some ⟨rid, FState.done v⟩ := by
  refine ⟨?_, ?_, ?_, ?_⟩ <;> simp [onMessage, send_request_pending, setResult, h]

/-- C6 witness: expected identifier 5, non-matching identifier 4. -/
theorem claim_C6_witness :
    (4 : Int) ≠ 5 ∧
    (onMessage (send_request_pending 5) 4 = some (send_request_pending 5) ∧
     onMessage (send_request_pending 5) 5 = some ⟨5, FState.done 5⟩ ∧
     onMessage ⟨5, FState.done 7⟩ 5 = none ∧
     onMessage ⟨5, FState.done 7⟩ 4 = some ⟨5, FState.done 7⟩) :=
  ⟨by decide, claim_C6 5 4 7 (by decide)⟩

/-- C7: with a 300-byte payload and negotiated chunk size 128 the upload
loop sends exactly 3 chunks, of sizes 128, 128, 44, in order, and the
running checksum after the third chunk equals the checksum of the whole
payload with seed 0. -/
theorem claim_C7 (p : List Nat) (hp : p.length = 300) :
    (uploadChunks p 128).map List.length = [128, 128, 44] ∧
    runningCrc p 128 = crc p 0 4 := upload_chunks_300 p hp

/-- C7 witness: the 300-byte payload of 7s. -/
theorem claim_C7_witness :
    (List.replicate 300 7).length = 300 ∧
    ((uploadChunks (List.replicate 300 7) 128).map List.length = [128, 128, 44] ∧
     runningCrc (List.replicate 300 7) 128 = crc (List.replicate 300 7) 0 4) :=
  ⟨by rw [List.length_replicate],
   claim_C7 (List.replicate 300 7) (by rw [List.length_replicate])⟩

/-- C8: a start-upload response with success = false ends the session in
the Failed state, and no transfer-chunk request appears among the requests
sent (only the clear-slot and start-upload requests were issued). -/
theorem claim_C8 (clearOk : Bool) (chunkOk : List Nat → Bool) (progOk : Bool)
    (payload : List Nat) (mcs : Nat) :
    (file_upload clearOk false chunkOk progOk payload mcs).1 = UpResult.failed ∧
    ∀ rc c, Req.transferChunk rc c ∉ (file_upload clearOk false chunkOk progOk payload mcs).2 := by
  unfold file_upload
  simp

/-- C9: a packet whose final byte is not the delimiter 2 is dropped by the
inbound handler without being decoded; the correlator state (in particular
any pending request) is unchanged, for every deserializer. -/
theorem claim_C9 (deser : List Nat → Option Int) (st : CorrSt) (data : List Nat) (b : Nat)
    (hlast : data.getLast? = some b) (hb : b ≠ 2) :
    on_data deser st data = some st := by
  unfold on_data
  rw [hlast]
  simp [hb]

/-- C9 witness: the one-byte packet `[7]` with the initial pending state
`(-1, Future())`. -/
theorem claim_C9_witness :
    ([7] : List Nat).getLast? = some 7 ∧ (7 : Nat) ≠ 2 ∧
    on_data (fun _ => none) ⟨-1, FState.pending⟩ [7] = some ⟨-1, FState.pending⟩ :=
  ⟨rfl, by decide, claim_C9 (fun _ => none) ⟨-1, FState.pending⟩ [7] 7 rfl (by decide)⟩

/-- C10: `decode` on the empty sequence fails (the `data[0]` access), and
consequently `unpack` on a frame consisting of only the delimiter byte
fails rather than returning the empty sequence. -/
theorem claim_C10 : decode [] = none ∧ unpack [2] = none := ⟨rfl, rfl⟩
